import Mathlib

/-!
Verification of the multi-stream playback synchronization engine of the
lerobot dataset visualizer (`src/components/simple-videos-player.tsx`).

The component is shallowly embedded: times are rationals, the mutable refs
and React state become explicit state records, and the event-driven parts
(readiness reports, the fallback timer, leader time updates, animation
frames, visibility toggles) become step functions over explicit event lists.
-/

/-- Embedding of the `VideoInfo` record of the component: a stream
descriptor with a filename, an optional segment mapping, and the
`isSegmented` flag.  Times are rationals. -/
structure VideoInfo where
  filename : String
  isSegmented : Bool
  segmentStart : Option ℚ
  segmentEnd : Option ℚ
deriving DecidableEq

/-- JavaScript `x || d` on an optional number: `undefined` and `0` are falsy,
so the default is used for both.  This is how the component reads
`info.segmentStart || 0` and `info.segmentEnd || video.duration`. -/
def jsOrQ (x : Option ℚ) (d : ℚ) : ℚ :=
  match x with
  | none => d
  | some v => if v = 0 then d else v

theorem jsOrQ_some_zero (a : ℚ) : jsOrQ (some a) 0 = a := by
  unfold jsOrQ
  by_cases h : a = 0 <;> simp [h]

/-! ## Readiness barrier

State of the readiness machinery: `readySetRef` (a JS `Set` of video
indices), `hasCalledReadyRef`, the `videosReady` React state, the shared
`isPlaying` flag of the time context, and a ghost counter of how many times
the `onVideosReady` callback has been invoked. -/

structure ReadyState where
  readySet : Finset ℕ
  hasCalledReady : Bool
  videosReady : Bool
  isPlaying : Bool
  readyCallbackCount : ℕ
deriving DecidableEq

/-- Initial readiness state: empty ready set, nothing fired. -/
def initReadyState : ReadyState :=
  { readySet := ∅, hasCalledReady := false, videosReady := false,
    isPlaying := false, readyCallbackCount := 0 }

/-- Embedding of `triggerReady`: guarded by `hasCalledReadyRef`, it sets
`videosReady`, invokes `onVideosReady` (counted by the ghost field) and sets
`isPlaying` to `true`. -/
def triggerReady (s : ReadyState) : ReadyState :=
  if s.hasCalledReady then s
  else
    { s with hasCalledReady := true, videosReady := true,
             readyCallbackCount := s.readyCallbackCount + 1,
             isPlaying := true }

/-- Embedding of `checkReady(videoIndex)`: after the one-shot guard, the
index is added to the ready set and `triggerReady` fires when the set size
reaches `videosInfo.length` (the total number of streams, `n`). -/
def checkReady (n : ℕ) (i : ℕ) (s : ReadyState) : ReadyState :=
  if s.hasCalledReady then s
  else
    let s1 := { s with readySet := insert i s.readySet }
    if n ≤ s1.readySet.card then triggerReady s1 else s1

/-- Embedding of the 5-second fallback timer body: force `triggerReady` iff
the barrier has not fired yet and at least one stream has reported ready. -/
def fallbackFire (s : ReadyState) : ReadyState :=
  if !s.hasCalledReady && 0 < s.readySet.card then triggerReady s else s

/-- Events that drive the readiness barrier: a stream reporting ready
(`loadeddata` / `canplaythrough` / `readyState >= 3`, all funneled through
`checkReady`), and the fallback timer elapsing. -/
inductive ReadyEvent where
  | report (i : ℕ)
  | fallback
deriving DecidableEq

/-- One step of the readiness barrier. -/
def readyStep (n : ℕ) (s : ReadyState) : ReadyEvent → ReadyState
  | .report i => checkReady n i s
  | .fallback => fallbackFire s

/-- Run the readiness barrier over a list of events from the initial state. -/
def runReady (n : ℕ) (es : List ReadyEvent) : ReadyState :=
  es.foldl (readyStep n) initReadyState

/-- Readiness aggregate as the spec describes it: every stream that is not
hidden has reported ready.  `hidden` is the set of hidden stream indices. -/
def allVisibleReady (n : ℕ) (hidden : Finset ℕ) (s : ReadyState) : Prop :=
  ∀ i < n, i ∉ hidden → i ∈ s.readySet

theorem readyStep_frozen (n : ℕ) (s : ReadyState) (h : s.hasCalledReady = true)
    (e : ReadyEvent) : readyStep n s e = s := by
  cases e <;> simp [readyStep, checkReady, fallbackFire, h]

/-- Invariant tying the one-shot guard to the callback count, the
`videosReady` state and the `isPlaying` flag. -/
def readyInv (s : ReadyState) : Prop :=
  (s.hasCalledReady = false ∧ s.videosReady = false ∧ s.isPlaying = false ∧
    s.readyCallbackCount = 0) ∨
  (s.hasCalledReady = true ∧ s.videosReady = true ∧ s.isPlaying = true ∧
    s.readyCallbackCount = 1)

theorem readyStep_inv (n : ℕ) (s : ReadyState) (e : ReadyEvent) (h : readyInv s) :
    readyInv (readyStep n s e) := by
  rcases h with ⟨h1, h2, h3, h4⟩ | ⟨h1, h2, h3, h4⟩
  · cases e with
    | report i =>
      unfold readyStep checkReady triggerReady
      by_cases hc : n ≤ (insert i s.readySet).card <;>
        simp [readyInv, h1, h2, h3, h4, hc]
    | fallback =>
      unfold readyStep fallbackFire triggerReady
      by_cases hc : 0 < s.readySet.card <;>
        simp [readyInv, h1, h2, h3, h4, hc]
  · rw [readyStep_frozen n s h1 e]
    exact Or.inr ⟨h1, h2, h3, h4⟩

theorem foldl_readyInv (n : ℕ) (es : List ReadyEvent) (s : ReadyState)
    (h : readyInv s) : readyInv (es.foldl (readyStep n) s) := by
  induction es generalizing s with
  | nil => exact h
  | cons e es ih => exact ih _ (readyStep_inv n s e h)

theorem runReady_inv (n : ℕ) (es : List ReadyEvent) : readyInv (runReady n es) :=
  foldl_readyInv n es initReadyState (Or.inl ⟨rfl, rfl, rfl, rfl⟩)

/-- C3: for every sequence of readiness reports and timer firings, the
`onVideosReady` callback runs at most once, `isPlaying` is `true` exactly
when the callback has run, and once `hasCalledReadyRef` is set every further
event leaves the state unchanged (the barrier never re-arms). -/
theorem C3_ready_transition_once (n : ℕ) (es : List ReadyEvent) :
    (runReady n es).readyCallbackCount ≤ 1 ∧
    ((runReady n es).isPlaying = true ↔ (runReady n es).readyCallbackCount = 1) ∧
    (∀ (s : ReadyState) (e : ReadyEvent), s.hasCalledReady = true →
      readyStep n s e = s) := by
  refine ⟨?_, ?_, fun s e h => readyStep_frozen n s h e⟩ <;>
    rcases runReady_inv n es with ⟨h1, h2, h3, h4⟩ | ⟨h1, h2, h3, h4⟩ <;>
      simp [h3, h4]

theorem C3_witness :
    (runReady 3 [ReadyEvent.report 0, ReadyEvent.fallback,
      ReadyEvent.report 1]).readyCallbackCount ≤ 1 :=
  (C3_ready_transition_once 3
    [ReadyEvent.report 0, ReadyEvent.fallback, ReadyEvent.report 1]).1

/-- C1, counterexample: with 2 streams where stream 1 is hidden (a hidden
stream is not rendered, its ref is null, so it can never report), stream 0
— the only visible stream — reports ready, so every visible stream is ready
(`allVisibleReady`), yet `checkReady` does not fire the barrier: the ready
condition compares the set size against the TOTAL number of streams, so
hidden streams are not excluded from the readiness computation. -/
theorem C1_counterexample :
    allVisibleReady 2 {1} (runReady 2 [ReadyEvent.report 0]) ∧
    (runReady 2 [ReadyEvent.report 0]).hasCalledReady = false ∧
    (runReady 2 [ReadyEvent.report 0]).isPlaying = false := by
  unfold allVisibleReady
  decide

theorem runReady_hidden_aux (n hIdx : ℕ) (es : List ReadyEvent)
    (hn : hIdx < n) :
    ∀ s : ReadyState, s.readySet ⊆ (Finset.range n).erase hIdx →
    s.hasCalledReady = false →
    (∀ i, ReadyEvent.report i ∈ es → i < n ∧ i ≠ hIdx) →
    ReadyEvent.fallback ∉ es →
    (es.foldl (readyStep n) s).hasCalledReady = false := by
  induction es with
  | nil => intro s _ hc _ _; exact hc
  | cons e es ih =>
    intro s hs hc hes hfb
    cases e with
    | fallback => exact absurd (List.mem_cons_self _ _) hfb
    | report i =>
      obtain ⟨hin, hih⟩ := hes i (List.mem_cons_self _ _)
      have hsub : insert i s.readySet ⊆ (Finset.range n).erase hIdx := by
        intro j hj
        rcases Finset.mem_insert.mp hj with rfl | hj2
        · exact Finset.mem_erase.mpr ⟨hih, Finset.mem_range.mpr hin⟩
        · exact hs hj2
      have hcard : (insert i s.readySet).card < n := by
        have h1 : (insert i s.readySet).card ≤ ((Finset.range n).erase hIdx).card :=
          Finset.card_le_card hsub
        have h2 : ((Finset.range n).erase hIdx).card = n - 1 := by
          rw [Finset.card_erase_of_mem (Finset.mem_range.mpr hn), Finset.card_range]
        omega
      have hstep : readyStep n s (ReadyEvent.report i) =
          { s with readySet := insert i s.readySet } := by
        simp [readyStep, checkReady, hc, Nat.not_le.mpr hcard]
      rw [List.foldl_cons, hstep]
      exact ih _ hsub hc (fun j hj => hes j (List.mem_cons_of_mem _ hj))
        (fun hmem => hfb (List.mem_cons_of_mem _ hmem))

/-- C1, amended: the ready-report path fires the barrier iff the ready-set
size reaches the total stream count `n`; hidden streams are NOT excluded, so
while some stream is hidden (and hence never reports) no sequence of ready
reports alone can fire the barrier — only the fallback timer can. -/
theorem C1_amended_total_count (n hIdx : ℕ) (es : List ReadyEvent)
    (hn : hIdx < n)
    (hes : ∀ i, ReadyEvent.report i ∈ es → i < n ∧ i ≠ hIdx)
    (hfb : ReadyEvent.fallback ∉ es) :
    (runReady n es).hasCalledReady = false ∧
    (∀ (i : ℕ) (s : ReadyState), s.hasCalledReady = false →
      ((checkReady n i s).hasCalledReady = true ↔ n ≤ (insert i s.readySet).card)) := by
  constructor
  · exact runReady_hidden_aux n hIdx es hn initReadyState
      (by simp [initReadyState]) rfl hes hfb
  · intro i s hc
    unfold checkReady triggerReady
    by_cases hcond : n ≤ (insert i s.readySet).card <;> simp [hc, hcond]

theorem C1_amended_witness :
    (runReady 2 [ReadyEvent.report 0]).hasCalledReady = false :=
  (C1_amended_total_count 2 1 [ReadyEvent.report 0] (by decide)
    (by intro i hi; simp at hi; subst hi; exact ⟨by decide, by decide⟩)
    (by decide)).1

/-- C4: when the 5-second fallback timer elapses and the barrier has not
fired yet, the transition is forced iff at least one stream has reported
ready; with zero ready streams the state is unchanged, and with at least one
the barrier fires with the current ready subset. -/
theorem C4_fallback_requires_one_ready (s : ReadyState)
    (h : s.hasCalledReady = false) :
    ((fallbackFire s).hasCalledReady = true ↔ s.readySet ≠ ∅) ∧
    (s.readySet = ∅ → fallbackFire s = s) ∧
    (s.readySet ≠ ∅ →
      (fallbackFire s).isPlaying = true ∧
      (fallbackFire s).readySet = s.readySet ∧
      (fallbackFire s).readyCallbackCount = s.readyCallbackCount + 1) := by
  unfold fallbackFire triggerReady
  by_cases hne : s.readySet = ∅
  · simp [h, hne]
  · have hcard : 0 < s.readySet.card :=
      Finset.card_pos.mpr (Finset.nonempty_iff_ne_empty.mpr hne)
    simp [h, hcard, hne]

theorem C4_witness :
    (fallbackFire { initReadyState with readySet := {0} }).hasCalledReady = true ∧
    (fallbackFire initReadyState).hasCalledReady = false :=
  ⟨(C4_fallback_requires_one_ready { initReadyState with readySet := {0} }
      rfl).1.mpr (by decide),
   by
    have h := (C4_fallback_requires_one_ready initReadyState rfl).2.1 rfl
    rw [h]
    rfl⟩

/-! ## Leader election

The component computes `firstVisibleIdx` with `videosInfo.findIndex` over
the hidden-filename list, and attaches the `onTimeUpdate` handler (the only
feedback path into the clock) exactly to the rendered video whose index
equals `firstVisibleIdx`; hidden videos are not rendered at all. -/

/-- A video is visible iff its filename is not in the `hiddenVideos` list. -/
def visibleVideo (hidden : List String) (v : VideoInfo) : Bool :=
  !hidden.contains v.filename

/-- JavaScript `Array.prototype.findIndex`, with `none` for `-1`. -/
def findIndex (p : VideoInfo → Bool) : List VideoInfo → Option ℕ
  | [] => none
  | v :: rest => if p v then some 0 else (findIndex p rest).map (fun k => k + 1)

/-- Embedding of `firstVisibleIdx`: index of the first video whose filename
is not hidden. -/
def firstVisibleIdx (videos : List VideoInfo) (hidden : List String) : Option ℕ :=
  findIndex (visibleVideo hidden) videos

/-- The `onTimeUpdate` prop is set exactly on the rendered (visible) video
whose index is `firstVisibleIdx`; hidden videos are not rendered and get no
handler. -/
def hasTimeUpdateHandler (videos : List VideoInfo) (hidden : List String)
    (idx : ℕ) : Bool :=
  match videos[idx]? with
  | none => false
  | some v => visibleVideo hidden v && (firstVisibleIdx videos hidden == some idx)

theorem findIndex_eq_some_iff (p : VideoInfo → Bool) (videos : List VideoInfo) :
    ∀ i : ℕ, findIndex p videos = some i ↔
      ((∃ v, videos[i]? = some v ∧ p v = true) ∧
       ∀ j < i, ∀ w, videos[j]? = some w → p w = false) := by
  induction videos with
  | nil => intro i; simp [findIndex]
  | cons a l ih =>
    intro i
    cases hpa : p a with
    | true =>
      rw [show findIndex p (a :: l) = some 0 by simp [findIndex, hpa]]
      cases i with
      | zero => simp [hpa]
      | succ k =>
        simp only [Option.some.injEq]
        constructor
        · intro h; exact absurd h (by omega)
        · rintro ⟨-, hall⟩
          have h0 := hall 0 (Nat.succ_pos k) a (by simp)
          rw [hpa] at h0
          exact absurd h0 (by decide)
    | false =>
      have hfi : findIndex p (a :: l) = (findIndex p l).map (fun k => k + 1) := by
        simp [findIndex, hpa]
      rw [hfi]
      cases i with
      | zero =>
        constructor
        · intro h
          rcases Option.map_eq_some'.mp h with ⟨k, _, hk1⟩
          simp at hk1
        · rintro ⟨⟨v, hv, hpv⟩, -⟩
          rw [List.getElem?_cons_zero, Option.some.injEq] at hv
          rw [← hv, hpa] at hpv
          exact absurd hpv (by decide)
      | succ k =>
        rw [Option.map_eq_some']
        constructor
        · rintro ⟨m, hm, hmk⟩
          have hmk2 : m = k := by simpa using hmk
          rw [hmk2] at hm
          rcases (ih k).mp hm with ⟨⟨v, hv, hpv⟩, hall⟩
          refine ⟨⟨v, by simpa using hv, hpv⟩, ?_⟩
          intro j hj w hw
          cases j with
          | zero =>
            rw [List.getElem?_cons_zero, Option.some.injEq] at hw
            rw [← hw]; exact hpa
          | succ m =>
            rw [List.getElem?_cons_succ] at hw
            exact hall m (by omega) w hw
        · rintro ⟨⟨v, hv, hpv⟩, hall⟩
          refine ⟨k, (ih k).mpr ⟨⟨v, by simpa using hv, hpv⟩, ?_⟩, rfl⟩
          intro j hj w hw
          exact hall (j + 1) (by omega) w (by simpa using hw)

theorem hasTimeUpdateHandler_eq_true_iff (videos : List VideoInfo)
    (hidden : List String) (idx : ℕ) :
    hasTimeUpdateHandler videos hidden idx = true ↔
      ∃ v, videos[idx]? = some v ∧ visibleVideo hidden v = true ∧
        firstVisibleIdx videos hidden = some idx := by
  unfold hasTimeUpdateHandler
  cases h : videos[idx]? with
  | none => simp
  | some v => simp [h, Bool.and_eq_true, beq_iff_eq]

/-- C5: for every video list and every hidden set, at most one stream has
the `onTimeUpdate` handler (so at most one leader writes the clock at any
instant), any stream holding the handler is visible and is preceded only by
hidden streams (lowest visible registration index), and the handler is
attached at `firstVisibleIdx` whenever one exists. -/
theorem C5_single_leader_feedback (videos : List VideoInfo) (hidden : List String) :
    (∀ i j, hasTimeUpdateHandler videos hidden i = true →
       hasTimeUpdateHandler videos hidden j = true → i = j) ∧
    (∀ i, hasTimeUpdateHandler videos hidden i = true →
       ∃ v, videos[i]? = some v ∧ visibleVideo hidden v = true ∧
         ∀ j < i, ∀ w, videos[j]? = some w → visibleVideo hidden w = false) ∧
    (∀ i, firstVisibleIdx videos hidden = some i →
       hasTimeUpdateHandler videos hidden i = true) := by
  refine ⟨?_, ?_, ?_⟩
  · intro i j hi hj
    rcases (hasTimeUpdateHandler_eq_true_iff videos hidden i).mp hi with ⟨v, _, _, hfi⟩
    rcases (hasTimeUpdateHandler_eq_true_iff videos hidden j).mp hj with ⟨w, _, _, hfj⟩
    rw [hfi] at hfj
    exact Option.some.inj hfj
  · intro i hi
    rcases (hasTimeUpdateHandler_eq_true_iff videos hidden i).mp hi with ⟨v, hv, hvis, hfi⟩
    rcases (findIndex_eq_some_iff (visibleVideo hidden) videos i).mp hfi with ⟨-, hall⟩
    exact ⟨v, hv, hvis, hall⟩
  · intro i hfi
    rcases (findIndex_eq_some_iff (visibleVideo hidden) videos i).mp hfi with
      ⟨⟨v, hv, hpv⟩, -⟩
    exact (hasTimeUpdateHandler_eq_true_iff videos hidden i).mpr ⟨v, hv, hpv, hfi⟩

theorem C5_witness :
    hasTimeUpdateHandler [
      { filename := "a.mp4", isSegmented := false,
        segmentStart := none, segmentEnd := none },
      { filename := "b.mp4", isSegmented := false,
        segmentStart := none, segmentEnd := none }] ["a.mp4"] 1 = true :=
  (C5_single_leader_feedback _ ["a.mp4"]).2.2 1 (by decide)

/-! ## Segment mapping and the clock→streams sync effect -/

/-- Target local time the sync effect computes for a stream:
`(info.segmentStart || 0) + currentTime` for segmented streams, plain
`currentTime` otherwise. -/
def targetLocalTime (info : VideoInfo) (clockTime : ℚ) : ℚ :=
  if info.isSegmented then jsOrQ info.segmentStart 0 + clockTime else clockTime

/-- External-jump detection of the sync effect:
`Math.abs(currentTime - prevCurrentTimeRef.current) > 1`. -/
def isExternalJump (clockTime prevTime : ℚ) : Bool :=
  decide (|clockTime - prevTime| > 1)

/-- Seek decision of the sync effect for one stream:
`Math.abs(video.currentTime - targetTime) > threshold || (isExternalJump && isMainVideo)`
with threshold 1 for the main (leader) video and 0.5 for the others. -/
def syncSeeks (info : VideoInfo) (isMain isExtJump : Bool)
    (clockTime localTime : ℚ) : Bool :=
  decide (|localTime - targetLocalTime info clockTime| >
    (if isMain then (1 : ℚ) else 0.5)) || (isExtJump && isMain)

/-- New local time of a stream after the sync effect ran: seek to the target
iff the seek decision holds. -/
def syncNewLocalTime (info : VideoInfo) (isMain isExtJump : Bool)
    (clockTime localTime : ℚ) : ℚ :=
  if syncSeeks info isMain isExtJump clockTime localTime then
    targetLocalTime info clockTime
  else localTime

/-- The whole sync effect for the stream at `idx`: hidden streams (and
out-of-range indices, whose refs are null) are left untouched, the leader is
the stream at `firstVisibleIdx`. -/
def syncEffectStream (videos : List VideoInfo) (hidden : List String)
    (prevTime clockTime : ℚ) (idx : ℕ) (localTime : ℚ) : ℚ :=
  match videos[idx]? with
  | none => localTime
  | some info =>
    if visibleVideo hidden info then
      syncNewLocalTime info (firstVisibleIdx videos hidden == some idx)
        (isExternalJump clockTime prevTime) clockTime localTime
    else localTime

/-- Embedding of the segmented-stream `timeupdate` boundary handler: when
the local time reaches `(segmentEnd || duration) - 0.05` the local time is
reset to `segmentStart || 0`, and the global clock is reset to `0` iff the
stream is the leader (`index === firstVisibleIdx`).  Returns the new
`(localTime, clockTime)` pair. -/
def segmentBoundaryStep (info : VideoInfo) (duration localTime clockTime : ℚ)
    (isLeader : Bool) : ℚ × ℚ :=
  if info.isSegmented then
    if localTime ≥ jsOrQ info.segmentEnd duration - 0.05 then
      (jsOrQ info.segmentStart 0, if isLeader then 0 else clockTime)
    else (localTime, clockTime)
  else (localTime, clockTime)

/-- A segmented sample stream carved out of `[10, 15)` of its media file. -/
def sampleSegVideo : VideoInfo :=
  { filename := "s.mp4", isSegmented := true,
    segmentStart := some 10, segmentEnd := some 15 }

/-- C6: for a segmented stream with segment `[a, b)` (with `b ≠ 0`, where
the JS falsy-default would kick in), a local time within 0.05 of `b` (or
past it) is reset to `a`, with the global clock additionally reset to `0`
exactly when the stream is the leader; a local time below `b - 0.05` is left
alone. -/
theorem C6_segment_wraparound (info : VideoInfo) (a b dur t clock : ℚ)
    (isLeader : Bool) (hseg : info.isSegmented = true)
    (hs : info.segmentStart = some a) (he : info.segmentEnd = some b)
    (hb : b ≠ 0) :
    (t ≥ b - 0.05 →
      segmentBoundaryStep info dur t clock isLeader =
        (a, if isLeader then 0 else clock)) ∧
    (t < b - 0.05 →
      segmentBoundaryStep info dur t clock isLeader = (t, clock)) := by
  have hjb : jsOrQ info.segmentEnd dur = b := by rw [he]; unfold jsOrQ; simp [hb]
  have hja : jsOrQ info.segmentStart 0 = a := by rw [hs]; exact jsOrQ_some_zero a
  constructor <;> intro ht <;> unfold segmentBoundaryStep <;>
    rw [hseg, hjb, hja]
  · simp [ht]
  · simp [not_le.mpr ht, not_le_of_lt ht]

theorem C6_witness :
    segmentBoundaryStep sampleSegVideo 20 15.02 4.98 true = (10, 0) := by
  have h := (C6_segment_wraparound sampleSegVideo 10 15 20 15.02 4.98 true
    rfl rfl rfl (by norm_num)).1 (by norm_num)
  simpa using h

/-- C7: the seek decision of the sync effect holds iff the distance between
the stream's local time and its mapped target (`segmentStart + clockTime`
for segmented streams, `clockTime` otherwise) exceeds the threshold — 1
second for the leader, 0.5 for followers — or an external jump (clock moved
by more than 1 second since the previous value) forces the leader; the
effect seeks to exactly the mapped target when the decision holds and leaves
the local time alone otherwise, and hidden streams are never touched. -/
theorem C7_deadband_reconcile (info : VideoInfo) (isMain : Bool)
    (a prevTime clockTime localTime : ℚ)
    (hmap : (info.isSegmented = true ∧ info.segmentStart = some a) ∨
      info.isSegmented = false) :
    (syncSeeks info isMain (isExternalJump clockTime prevTime) clockTime
        localTime = true ↔
      (|localTime - (if info.isSegmented then a + clockTime else clockTime)| >
          (if isMain then (1 : ℚ) else 0.5) ∨
        (|clockTime - prevTime| > 1 ∧ isMain = true))) ∧
    (syncNewLocalTime info isMain (isExternalJump clockTime prevTime) clockTime
        localTime =
      if syncSeeks info isMain (isExternalJump clockTime prevTime) clockTime
          localTime
      then (if info.isSegmented then a + clockTime else clockTime)
      else localTime) ∧
    (∀ (videos : List VideoInfo) (hidden : List String) (idx : ℕ) (lt : ℚ),
      videos[idx]? = some info → visibleVideo hidden info = false →
      syncEffectStream videos hidden prevTime clockTime idx lt = lt) := by
  have htgt : targetLocalTime info clockTime =
      (if info.isSegmented then a + clockTime else clockTime) := by
    rcases hmap with ⟨hseg, hs⟩ | hseg
    · unfold targetLocalTime
      rw [hs, jsOrQ_some_zero]
    · simp [targetLocalTime, hseg]
  refine ⟨?_, ?_, ?_⟩
  · unfold syncSeeks isExternalJump
    rw [htgt]
    simp [Bool.or_eq_true, Bool.and_eq_true, decide_eq_true_eq]
  · unfold syncNewLocalTime
    rw [htgt]
  · intro videos hidden idx lt hv hvis
    unfold syncEffectStream
    rw [hv]
    simp [hvis]

theorem C7_witness :
    syncSeeks sampleSegVideo true (isExternalJump 5 0) 5 14 = true :=
  (C7_deadband_reconcile sampleSegVideo true 10 0 5 14
    (Or.inl ⟨rfl, rfl⟩)).1.mpr (Or.inr ⟨by norm_num, rfl⟩)

/-! ## The reconciler: leader feedback, throttling and the suppression flag

State of the leader↔clock reconciliation: the shared clock (`currentTime`),
the `prevCurrentTimeRef` used by external-jump detection, the
`isSyncingRef` feedback-loop flag, the `lastTimeUpdateRef` throttle
timestamp (milliseconds), the leader video's own playback position, and a
ghost counter of clock writes performed by the leader feedback path. -/

structure ReconcilerState where
  clock : ℚ
  prevTime : ℚ
  isSyncing : Bool
  lastTimeUpdate : ℕ
  leaderLocal : ℚ
  clockWrites : ℕ
deriving DecidableEq

/-- Initial reconciler state (clock at 0, no suppression, throttle ref 0). -/
def initReconcilerState : ReconcilerState :=
  { clock := 0, prevTime := 0, isSyncing := false, lastTimeUpdate := 0,
    leaderLocal := 0, clockWrites := 0 }

/-- Global time reported by the leader for a local playback position:
`video.currentTime - (info.segmentStart || 0)` for segmented streams. -/
def toGlobalTime (info : VideoInfo) (localTime : ℚ) : ℚ :=
  if info.isSegmented then localTime - jsOrQ info.segmentStart 0 else localTime

/-- One run of the sync-video-times effect restricted to the leader stream:
detect an external jump against `prevCurrentTimeRef`, update that ref, and
reconcile the leader's local time.  The effect never touches `isSyncingRef`,
`lastTimeUpdateRef` or the write counter. -/
def runSyncEffect (info : VideoInfo) (s : ReconcilerState) : ReconcilerState :=
  { s with prevTime := s.clock,
           leaderLocal := syncNewLocalTime info true
             (isExternalJump s.clock s.prevTime) s.clock s.leaderLocal }

/-- Events seen by the reconciler: an external clock write (scrub bar,
reset, URL time parameter) which re-runs the sync effect; a native
`timeupdate` of the leader video at wall-clock millisecond `now` with the
video at `localTime`, handled by `handleTimeUpdate` (whose clock write
re-runs the sync effect); and the `requestAnimationFrame` callback that
clears `isSyncingRef`. -/
inductive RecEvent where
  | externalSetTime (t : ℚ)
  | leaderTimeUpdate (now : ℕ) (localTime : ℚ)
  | animationFrame
deriving DecidableEq

/-- One reconciler step.  `leaderTimeUpdate` is the embedding of
`handleTimeUpdate`: skip while `isSyncingRef` is set, throttle at 100ms
since the last applied update, otherwise stamp the throttle ref, set
`isSyncingRef`, write the leader's global time into the clock and let the
sync effect react to the new clock value. -/
def recStep (info : VideoInfo) (s : ReconcilerState) : RecEvent → ReconcilerState
  | .externalSetTime t => runSyncEffect info { s with clock := t }
  | .leaderTimeUpdate now lt =>
      let s1 := { s with leaderLocal := lt }
      if s1.isSyncing then s1
      else if now - s1.lastTimeUpdate < 100 then s1
      else
        runSyncEffect info
          { s1 with lastTimeUpdate := now, isSyncing := true,
                    clock := toGlobalTime info lt,
                    clockWrites := s1.clockWrites + 1 }
  | .animationFrame => { s with isSyncing := false }

/-- Run the reconciler over an event list from the initial state. -/
def runRec (info : VideoInfo) (es : List RecEvent) : ReconcilerState :=
  es.foldl (recStep info) initReconcilerState

/-- A plain (non-segmented) sample stream. -/
def samplePlainVideo : VideoInfo :=
  { filename := "p.mp4", isSegmented := false,
    segmentStart := none, segmentEnd := none }

/-- C2, counterexample: an external clock write to 10 makes the sync effect
programmatically seek the leader (its local time jumps from 0 to 10 — a
Clock→streams push), yet `isSyncingRef` stays `false`, so the very next
leader `timeupdate` — with no animation frame in between, i.e. within the
same scheduling tick — is NOT suppressed: it writes the clock.  The
suppression the claim describes does not guard Clock→streams pushes caused
by external time changes. -/
theorem C2_counterexample :
    (runRec samplePlainVideo [RecEvent.externalSetTime 10]).leaderLocal = 10 ∧
    (runRec samplePlainVideo [RecEvent.externalSetTime 10]).isSyncing = false ∧
    (runRec samplePlainVideo [RecEvent.externalSetTime 10]).clockWrites = 0 ∧
    (runRec samplePlainVideo [RecEvent.externalSetTime 10,
      RecEvent.leaderTimeUpdate 1000 10]).clockWrites = 1 := by
  have h1 : runRec samplePlainVideo [RecEvent.externalSetTime 10] =
      { clock := 10, prevTime := 10, isSyncing := false, lastTimeUpdate := 0,
        leaderLocal := 10, clockWrites := 0 } := by
    norm_num [runRec, recStep, runSyncEffect, initReconcilerState,
      syncNewLocalTime, syncSeeks, targetLocalTime, isExternalJump,
      samplePlainVideo]
  have h2 : runRec samplePlainVideo [RecEvent.externalSetTime 10,
      RecEvent.leaderTimeUpdate 1000 10] =
      recStep samplePlainVideo
        { clock := 10, prevTime := 10, isSyncing := false, lastTimeUpdate := 0,
          leaderLocal := 10, clockWrites := 0 }
        (RecEvent.leaderTimeUpdate 1000 10) := by
    rw [show runRec samplePlainVideo [RecEvent.externalSetTime 10,
        RecEvent.leaderTimeUpdate 1000 10] =
      recStep samplePlainVideo (runRec samplePlainVideo
        [RecEvent.externalSetTime 10]) (RecEvent.leaderTimeUpdate 1000 10) from
      rfl, h1]
  rw [h1, h2]
  refine ⟨rfl, rfl, rfl, ?_⟩
  norm_num [recStep, runSyncEffect, syncNewLocalTime, syncSeeks,
    targetLocalTime, isExternalJump, toGlobalTime, samplePlainVideo]

theorem recStep_external_isSyncing (info : VideoInfo) (s : ReconcilerState)
    (t : ℚ) : (recStep info s (RecEvent.externalSetTime t)).isSyncing = s.isSyncing := by
  simp [recStep, runSyncEffect]

/-- C2, amended: the one-tick suppression is armed by the Leader→clock path
itself, not by Clock→streams pushes: whenever `handleTimeUpdate` writes the
clock it sets `isSyncingRef`; while `isSyncingRef` is set every further
leader `timeupdate` leaves the clock (and the write count) unchanged; the
sync effect triggered by an external clock write leaves `isSyncingRef`
unchanged, and only the next animation frame clears it. -/
theorem C2_amended_suppression (info : VideoInfo) (s : ReconcilerState)
    (now : ℕ) (lt t : ℚ) :
    ((recStep info s (RecEvent.leaderTimeUpdate now lt)).clockWrites ≠
        s.clockWrites →
      (recStep info s (RecEvent.leaderTimeUpdate now lt)).isSyncing = true) ∧
    (s.isSyncing = true →
      (recStep info s (RecEvent.leaderTimeUpdate now lt)).clockWrites =
          s.clockWrites ∧
      (recStep info s (RecEvent.leaderTimeUpdate now lt)).clock = s.clock) ∧
    ((recStep info s (RecEvent.externalSetTime t)).isSyncing = s.isSyncing) ∧
    ((recStep info s RecEvent.animationFrame).isSyncing = false) := by
  refine ⟨?_, ?_, recStep_external_isSyncing info s t, rfl⟩
  · intro hw
    by_cases hsync : s.isSyncing
    · simp [recStep, hsync]
    · by_cases hthr : now - s.lastTimeUpdate < 100
      · simp [recStep, hsync, hthr] at hw
      · simp [recStep, hsync, hthr, runSyncEffect]
  · intro hsync
    simp [recStep, hsync]

theorem C2_amended_witness :
    (recStep samplePlainVideo
      { initReconcilerState with isSyncing := true }
      (RecEvent.leaderTimeUpdate 1000 5)).clockWrites =
    ({ initReconcilerState with isSyncing := true } : ReconcilerState).clockWrites :=
  ((C2_amended_suppression samplePlainVideo
    { initReconcilerState with isSyncing := true } 1000 5 0).2.1 rfl).1

/-- C8, counterexample: the throttle is measured from the last APPLIED
update, not from the previous event.  Leader updates at 1000ms, 1090ms and
1150ms (with an animation frame after the first, so suppression is not
involved): 1000 is applied, 1090 is dropped, and 1150 — only 60ms after
1090 — is applied as well, so for the pair (1090, 1150), which is less than
100ms apart, the first is NOT applied and the second is NOT dropped. -/
theorem C8_counterexample :
    (1150 - 1090 < 100) ∧
    (runRec samplePlainVideo [RecEvent.leaderTimeUpdate 1000 5,
      RecEvent.animationFrame, RecEvent.leaderTimeUpdate 1090 6]).clockWrites = 1 ∧
    (runRec samplePlainVideo [RecEvent.leaderTimeUpdate 1000 5,
      RecEvent.animationFrame, RecEvent.leaderTimeUpdate 1090 6,
      RecEvent.leaderTimeUpdate 1150 7]).clockWrites = 2 := by
  refine ⟨by norm_num, ?_, ?_⟩ <;>
    norm_num [runRec, recStep, runSyncEffect, initReconcilerState,
      syncNewLocalTime, syncSeeks, targetLocalTime, isExternalJump,
      toGlobalTime, samplePlainVideo]

/-- C8, amended: the Leader→clock path is rate-limited relative to the last
applied update: a leader `timeupdate` arriving less than 100ms after the
last applied one never writes the clock, and whenever an update does write
the clock at least 100ms have passed since the last applied update and the
throttle timestamp is moved to `now` — hence applied clock writes are at
least 100ms of wall time apart. -/
theorem C8_amended_throttle (info : VideoInfo) (s : ReconcilerState)
    (now : ℕ) (lt : ℚ) :
    (now < s.lastTimeUpdate + 100 →
      (recStep info s (RecEvent.leaderTimeUpdate now lt)).clockWrites =
        s.clockWrites) ∧
    ((recStep info s (RecEvent.leaderTimeUpdate now lt)).clockWrites ≠
        s.clockWrites →
      s.lastTimeUpdate + 100 ≤ now ∧
      (recStep info s (RecEvent.leaderTimeUpdate now lt)).lastTimeUpdate = now) := by
  constructor
  · intro hlt
    by_cases hsync : s.isSyncing
    · simp [recStep, hsync]
    · have hthr : now - s.lastTimeUpdate < 100 := by omega
      simp [recStep, hsync, hthr]
  · intro hw
    by_cases hsync : s.isSyncing
    · simp [recStep, hsync] at hw
    · by_cases hthr : now - s.lastTimeUpdate < 100
      · simp [recStep, hsync, hthr] at hw
      · constructor
        · omega
        · simp [recStep, hsync, hthr, runSyncEffect]

theorem C8_amended_witness :
    (recStep samplePlainVideo
      { initReconcilerState with lastTimeUpdate := 1000 }
      (RecEvent.leaderTimeUpdate 1090 6)).clockWrites =
    ({ initReconcilerState with lastTimeUpdate := 1000 } : ReconcilerState).clockWrites :=
  (C8_amended_throttle samplePlainVideo
    { initReconcilerState with lastTimeUpdate := 1000 } 1090 6).1
    (by norm_num [initReconcilerState])

/-! ## Play/pause propagation -/

/-- Embedding of the play/pause effect for one stream: hidden streams get
nothing; a visible stream is paused immediately and unconditionally when
`isPlaying` is `false`, and is asked to play only when both `isPlaying` and
`videosReady` hold.  `some true` is a `play()` call, `some false` a
`pause()` call, `none` no call. -/
def playPauseCommand (info : VideoInfo) (hidden : List String)
    (isPlaying videosReady : Bool) : Option Bool :=
  if !hidden.contains info.filename then
    if isPlaying then
      if videosReady then some true else none
    else some false
  else none

/-- C9: on a play/pause change, a visible stream receives `pause()`
immediately regardless of readiness, receives `play()` only when the
readiness barrier has fired (`videosReady`), and a hidden stream receives
neither call. -/
theorem C9_pause_immediate_play_gated (info : VideoInfo) (hidden : List String)
    (vr : Bool) :
    (hidden.contains info.filename = false →
      playPauseCommand info hidden false vr = some false) ∧
    (hidden.contains info.filename = false →
      playPauseCommand info hidden true vr = if vr then some true else none) ∧
    (hidden.contains info.filename = true →
      ∀ ip, playPauseCommand info hidden ip vr = none) := by
  refine ⟨fun h => ?_, fun h => ?_, fun h ip => ?_⟩ <;>
    unfold playPauseCommand <;> rw [h] <;> simp

theorem C9_witness :
    playPauseCommand samplePlainVideo [] false false = some false :=
  (C9_pause_immediate_play_gated samplePlainVideo [] false).1 rfl

/-! ## Visibility toggles never hide the last visible stream -/

/-- Number of currently visible streams:
`videosInfo.filter(v => !hiddenVideos.includes(v.filename)).length`. -/
def visibleCount (videos : List VideoInfo) (hidden : List String) : ℕ :=
  (videos.filter (fun v => !hidden.contains v.filename)).length

/-- The hide button's `disabled` attribute: visible count equals 1. -/
def hideDisabled (videos : List VideoInfo) (hidden : List String) : Bool :=
  visibleCount videos hidden == 1

/-- User visibility actions available in the interface: hiding a rendered
video (button present only on visible videos, click ignored when disabled)
and restoring a hidden one (`prev.filter(v => v !== filename)`). -/
inductive VisAction where
  | hide (filename : String)
  | unhide (filename : String)
deriving DecidableEq

/-- Effect of one visibility action on the `hiddenVideos` list. -/
def applyVisAction (videos : List VideoInfo) (hidden : List String) :
    VisAction → List String
  | .hide f =>
      if videos.any (fun v => v.filename == f) && !hidden.contains f &&
          !hideDisabled videos hidden then
        hidden ++ [f]
      else hidden
  | .unhide f => hidden.filter (fun g => g != f)

theorem contains_eq_true_iff (l : List String) (s : String) :
    l.contains s = true ↔ s ∈ l := List.elem_iff

theorem filter_length_mono {α : Type} (l : List α) (p q : α → Bool)
    (h : ∀ a ∈ l, p a = true → q a = true) :
    (l.filter p).length ≤ (l.filter q).length := by
  induction l with
  | nil => simp
  | cons a l ih =>
    have ih2 := ih (fun x hx hpx => h x (List.mem_cons_of_mem _ hx) hpx)
    simp only [List.filter_cons]
    by_cases hp : p a = true
    · rw [if_pos hp, if_pos (h a (List.mem_cons_self a l) hp)]
      simpa using ih2
    · rw [if_neg hp]
      by_cases hq : q a = true
      · rw [if_pos hq]
        exact Nat.le_succ_of_le ih2
      · rw [if_neg hq]
        exact ih2

theorem filter_and_not_length {α : Type} (l : List α) (q r : α → Bool) :
    (l.filter q).length ≤
      (l.filter (fun v => q v && !r v)).length + (l.filter r).length := by
  induction l with
  | nil => simp
  | cons a l ih =>
    simp only [List.filter_cons]
    by_cases hq : q a = true <;> by_cases hr : r a = true <;>
      simp [hq, hr] <;> omega

theorem filter_filename_length_le_one (f : String) :
    ∀ videos : List VideoInfo, (videos.map VideoInfo.filename).Nodup →
    (videos.filter (fun v => v.filename == f)).length ≤ 1 := by
  intro videos
  induction videos with
  | nil => intro _; simp
  | cons a l ih =>
    intro hnd
    rw [List.map_cons, List.nodup_cons] at hnd
    obtain ⟨hna, hl⟩ := hnd
    simp only [List.filter_cons]
    by_cases ha : (a.filename == f) = true
    · rw [if_pos ha]
      have hf : a.filename = f := by simpa using ha
      have hnone : l.filter (fun v => v.filename == f) = [] := by
        rw [List.filter_eq_nil_iff]
        intro v hv hvb
        have hvf : v.filename = f := by simpa using hvb
        have hmem : v.filename ∈ l.map VideoInfo.filename :=
          List.mem_map_of_mem _ hv
        rw [hvf, ← hf] at hmem
        exact hna hmem
      rw [hnone]
      simp
    · rw [if_neg ha]
      exact ih hl

theorem applyVisAction_keeps_visible (videos : List VideoInfo)
    (hnd : (videos.map VideoInfo.filename).Nodup) (hidden : List String)
    (a : VisAction) (h : 1 ≤ visibleCount videos hidden) :
    1 ≤ visibleCount videos (applyVisAction videos hidden a) := by
  cases a with
  | unhide f =>
    refine le_trans h ?_
    unfold visibleCount applyVisAction
    apply filter_length_mono
    intro v _ hv
    cases hcf : (hidden.filter (fun g => g != f)).contains v.filename with
    | false => rfl
    | true =>
      have hmem := (List.mem_filter.mp ((contains_eq_true_iff _ _).mp hcf)).1
      rw [(contains_eq_true_iff hidden v.filename).mpr hmem] at hv
      simp at hv
  | hide f =>
    have happ : applyVisAction videos hidden (VisAction.hide f) =
        if videos.any (fun v => v.filename == f) && !hidden.contains f &&
            !hideDisabled videos hidden then hidden ++ [f] else hidden := rfl
    rw [happ]
    by_cases hg : (videos.any (fun v => v.filename == f) && !hidden.contains f &&
        !hideDisabled videos hidden) = true
    · rw [if_pos hg]
      have hg2 := hg
      simp only [Bool.and_eq_true, Bool.not_eq_true'] at hg2
      obtain ⟨⟨hany, hnc⟩, hdis⟩ := hg2
      have hne1 : visibleCount videos hidden ≠ 1 := by
        intro heq
        unfold hideDisabled at hdis
        simp [heq] at hdis
      have h2 : 2 ≤ visibleCount videos hidden := by omega
      have hcongr : videos.filter (fun v => !(hidden ++ [f]).contains v.filename) =
          videos.filter (fun v =>
            (!hidden.contains v.filename) && !(v.filename == f)) := by
        apply List.filter_congr
        intro v _
        rw [Bool.eq_iff_iff]
        simp only [Bool.not_eq_true', Bool.and_eq_true, beq_iff_eq]
        constructor
        · intro hno
          have hnomem : v.filename ∉ hidden ++ [f] := by
            intro hm
            rw [(contains_eq_true_iff (hidden ++ [f]) v.filename).mpr hm] at hno
            exact absurd hno (by simp)
          rw [List.mem_append, List.mem_singleton] at hnomem
          push_neg at hnomem
          constructor
          · cases hcc : hidden.contains v.filename with
            | false => rfl
            | true => exact absurd (List.elem_iff.mp hcc) hnomem.1
          · simpa using hnomem.2
        · rintro ⟨hc1, hc2⟩
          cases hcc : (hidden ++ [f]).contains v.filename with
          | false => rfl
          | true =>
            have := List.elem_iff.mp hcc
            rw [List.mem_append, List.mem_singleton] at this
            rcases this with hm | hm
            · rw [(contains_eq_true_iff hidden v.filename).mpr hm] at hc1
              exact absurd hc1 (by simp)
            · rw [hm] at hc2
              simp at hc2
      unfold visibleCount
      rw [hcongr]
      have hsplit : (videos.filter (fun v => !hidden.contains v.filename)).length ≤
          (videos.filter (fun v =>
            (!hidden.contains v.filename) && !(v.filename == f))).length +
          (videos.filter (fun v => v.filename == f)).length :=
        filter_and_not_length videos _ _
      have hle1 := filter_filename_length_le_one f videos hnd
      unfold visibleCount at h2
      omega
    · rw [if_neg hg]
      exact h

theorem foldl_keeps_visible (videos : List VideoInfo)
    (hnd : (videos.map VideoInfo.filename).Nodup) (acts : List VisAction) :
    ∀ hidden, 1 ≤ visibleCount videos hidden →
    1 ≤ visibleCount videos (acts.foldl (applyVisAction videos) hidden) := by
  induction acts with
  | nil => intro hidden h; exact h
  | cons a acts ih =>
    intro hidden h
    exact ih _ (applyVisAction_keeps_visible videos hnd hidden a h)

theorem visibleCount_nil_hidden (videos : List VideoInfo) :
    visibleCount videos [] = videos.length := by
  unfold visibleCount
  simp

/-- C10: the hide button is disabled exactly when the visible count is 1,
and consequently — for a non-empty video list with distinct filenames (the
list keys) — no sequence of hide/unhide actions through the interface,
starting from the initial all-visible state, can reach a state with zero
visible streams. -/
theorem C10_always_one_visible (videos : List VideoInfo)
    (hnd : (videos.map VideoInfo.filename).Nodup) (hne : videos ≠ [])
    (acts : List VisAction) :
    (∀ hidden, hideDisabled videos hidden = true ↔
      visibleCount videos hidden = 1) ∧
    1 ≤ visibleCount videos (acts.foldl (applyVisAction videos) []) := by
  constructor
  · intro hidden
    unfold hideDisabled
    exact beq_iff_eq
  · apply foldl_keeps_visible videos hnd acts []
    rw [visibleCount_nil_hidden]
    have := List.length_pos.mpr hne
    omega

theorem C10_witness :
    1 ≤ visibleCount [samplePlainVideo, sampleSegVideo]
      ([VisAction.hide "p.mp4", VisAction.hide "s.mp4"].foldl
        (applyVisAction [samplePlainVideo, sampleSegVideo]) []) :=
  (C10_always_one_visible [samplePlainVideo, sampleSegVideo]
    (by simp [samplePlainVideo, sampleSegVideo])
    (by simp)
    [VisAction.hide "p.mp4", VisAction.hide "s.mp4"]).2
